import Mathlib

/-!
Shallow embedding of the pdf-fts store layer (internal/database) and the scan
pipeline (internal/cmd/scan.go).

The SQLite `pdfs` table is a list of `Page` rows; the FTS5 virtual table
`pdfs_fts` is a list of `IndexEntry` rows.  The three `AFTER` triggers created
by `createTriggers` are baked into the row-level insert/delete primitives: an
insert into `pdfs` also appends the matching `pdfs_fts` row, a delete from
`pdfs` also deletes the `pdfs_fts` rows keyed by each deleted `pdfs` row.
SQL transactions (`Begin`/`Rollback`/`Commit`) are modelled by having each
store operation return the original state whenever any step fails; injected
step failures (I/O errors and the like) are explicit `Fail` parameters.
-/

namespace PdfFts

/-- A row of the `pdfs` table: `path, page_num, hash, content, last_scanned`.
The timestamp is an abstract `Nat`. -/
structure Page where
  path : String
  pageNum : Nat
  hash : String
  content : String
  lastScanned : Nat
deriving DecidableEq

/-- A row of the `pdfs_fts` FTS5 table: `path, page_num, content_idx`
(`path` and `page_num` are UNINDEXED identity columns). -/
structure IndexEntry where
  path : String
  pageNum : Nat
  content_idx : String
deriving DecidableEq

/-- The whole store: the `pdfs` table plus the `pdfs_fts` table. -/
structure DBState where
  pdfs : List Page
  fts : List IndexEntry
deriving DecidableEq

/-- Freshly initialised store (after `initSchema` on a new file). -/
def emptyDB : DBState := ⟨[], []⟩

/-- Primary key of a `pdfs` row: `(path, page_num)`. -/
def Page.key (r : Page) : String × Nat := (r.path, r.pageNum)

/-- Identity key of a `pdfs_fts` row. -/
def IndexEntry.key (e : IndexEntry) : String × Nat := (e.path, e.pageNum)

/-- The `pdfs_fts` row the `pdfs_after_insert` trigger derives from a `pdfs`
row: `INSERT INTO pdfs_fts (path, page_num, content_idx) VALUES
(new.path, new.page_num, new.content)`. -/
def Page.toEntry (r : Page) : IndexEntry := ⟨r.path, r.pageNum, r.content⟩

/-- `INSERT INTO pdfs ...` with the `pdfs_after_insert` trigger attached.
Fails (returns `none`) on a primary-key conflict, as SQLite does. -/
def insertPage (st : DBState) (r : Page) : Option DBState :=
  if st.pdfs.any (fun r0 => r0.key == r.key) then none
  else some ⟨st.pdfs ++ [r], st.fts ++ [r.toEntry]⟩

/-- `DELETE FROM pdfs WHERE path = ?` with the `pdfs_after_delete` trigger:
for each deleted row the trigger runs `DELETE FROM pdfs_fts WHERE path =
old.path AND page_num = old.page_num`. -/
def deletePagesForPath (st : DBState) (filePath : String) : DBState :=
  let deleted := st.pdfs.filter (fun r => r.path == filePath)
  ⟨st.pdfs.filter (fun r => r.path != filePath),
   st.fts.filter (fun e => !(deleted.any (fun r => r.key == e.key)))⟩

/-- Injected failure points for the steps of `UpsertPDFData`:
`Begin`, the `DELETE`, `Prepare`, each per-page `INSERT` (by 0-based loop
index), and `Commit`. -/
structure UpsertFail where
  beginFails : Bool
  deleteFails : Bool
  prepareFails : Bool
  insertFails : Nat → Bool
  commitFails : Bool

/-- No injected failures. -/
def noUpsertFail : UpsertFail := ⟨false, false, false, fun _ => false, false⟩

/-- The insert loop of `UpsertPDFData`: `for pageNum, content := range
pageContents { stmt.Exec(filePath, pageNum+1, hash, content) }`, running
inside the transaction; `i` is the 0-based loop index. -/
def insertPages (fail : UpsertFail) (filePath hash : String) (now : Nat) :
    DBState → Nat → List String → Option DBState
  | tx, _, [] => some tx
  | tx, i, c :: rest =>
    if fail.insertFails i then none
    else
      match insertPage tx ⟨filePath, i + 1, hash, c, now⟩ with
      | none => none
      | some tx' => insertPages fail filePath hash now tx' (i + 1) rest

/-- `UpsertPDFData(filePath, hash, pageContents)`: in one transaction, delete
all existing pages for the path, then insert one row per page, 1-indexed,
with the given hash and `CURRENT_TIMESTAMP` (`now`).  Returns the resulting
store and the error, if any; on error the transaction rolls back, so the
resulting store is the input store. -/
def UpsertPDFData (fail : UpsertFail) (st : DBState) (filePath hash : String)
    (pageContents : List String) (now : Nat) : DBState × Option String :=
  if fail.beginFails then (st, some "begin error")
  else if fail.deleteFails then (st, some "delete error")
  else
    let tx1 := deletePagesForPath st filePath
    if fail.prepareFails then (st, some "prepare error")
    else
      match insertPages fail filePath hash now tx1 0 pageContents with
      | none => (st, some "insert error")
      | some tx2 => if fail.commitFails then (st, some "commit error") else (tx2, none)

/-- `GetStoredHash`: `SELECT hash FROM pdfs WHERE path = ? LIMIT 1`;
`sql.ErrNoRows` is mapped to the empty string. -/
def GetStoredHash (st : DBState) (filePath : String) : String :=
  match st.pdfs.find? (fun r => r.path == filePath) with
  | some r => r.hash
  | none => ""

/-- `RebuildFTS`: in one transaction, drop the three triggers and the
`pdfs_fts` table, recreate them, and repopulate `pdfs_fts` with one row per
`pdfs` row (`SELECT path, page_num, content FROM pdfs`).  `fails` injects a
failure at any fatal step, in which case the transaction rolls back. -/
def RebuildFTS (fails : Bool) (st : DBState) : DBState × Option String :=
  if fails then (st, some "rebuild error")
  else (⟨st.pdfs, st.pdfs.map Page.toEntry⟩, none)

/-! ### Helper: the rows inserted by a successful upsert -/

/-- The `pdfs` rows the insert loop of `UpsertPDFData` produces, starting at
0-based loop index `i` (so page numbers `i+1, i+2, ...`). -/
def mkPages (filePath hash : String) (now : Nat) : Nat → List String → List Page
  | _, [] => []
  | i, c :: rest => ⟨filePath, i + 1, hash, c, now⟩ :: mkPages filePath hash now (i + 1) rest

theorem mkPages_length (p h : String) (now : Nat) :
    ∀ (cs : List String) (i : Nat), (mkPages p h now i cs).length = cs.length
  | [], _ => rfl
  | _ :: rest, i => by simp [mkPages, mkPages_length p h now rest (i + 1)]

theorem mkPages_get (p h : String) (now : Nat) :
    ∀ (cs : List String) (i j : Nat) (h1 : j < (mkPages p h now i cs).length)
      (h2 : j < cs.length),
      (mkPages p h now i cs).get ⟨j, h1⟩ = ⟨p, i + j + 1, h, cs.get ⟨j, h2⟩, now⟩
  | c :: rest, i, 0, _, _ => rfl
  | c :: rest, i, j + 1, h1, h2 => by
    have hlt : j < (mkPages p h now (i + 1) rest).length := by
      simp only [mkPages, List.length_cons] at h1
      omega
    have ih := mkPages_get p h now rest (i + 1) j hlt (by simpa using h2)
    simp only [mkPages, List.get_cons_succ]
    rw [ih]
    simp only [Page.mk.injEq, List.get_cons_succ, true_and, and_true]
    omega

theorem mkPages_get? (p h : String) (now : Nat) :
    ∀ (cs : List String) (i j : Nat),
      (mkPages p h now i cs).get? j
        = (cs.get? j).map (fun c => ⟨p, i + j + 1, h, c, now⟩)
  | [], i, j => by simp [mkPages]
  | c :: rest, i, 0 => by simp [mkPages]
  | c :: rest, i, j + 1 => by
    simp only [mkPages, List.get?_cons_succ]
    rw [mkPages_get? p h now rest (i + 1) j]
    have harith : i + 1 + j + 1 = i + (j + 1) + 1 := by omega
    rw [harith]

theorem mkPages_mem (p h : String) (now : Nat) :
    ∀ (cs : List String) (i : Nat) (r : Page), r ∈ mkPages p h now i cs →
      r.path = p ∧ r.hash = h ∧ r.lastScanned = now ∧
      i + 1 ≤ r.pageNum ∧ r.pageNum ≤ i + cs.length
  | c :: rest, i, r, hr => by
    rcases List.mem_cons.1 hr with hr | hr
    · subst hr
      refine ⟨rfl, rfl, rfl, Nat.le_refl _, ?_⟩
      show i + 1 ≤ i + (c :: rest).length
      simp only [List.length_cons]
      omega
    · have hm := mkPages_mem p h now rest (i + 1) r hr
      have hub := hm.2.2.2.2
      refine ⟨hm.1, hm.2.1, hm.2.2.1, by omega, ?_⟩
      simp only [List.length_cons]
      omega

theorem mkPages_pageNums_nodup (p h : String) (now : Nat) :
    ∀ (cs : List String) (i : Nat), ((mkPages p h now i cs).map Page.pageNum).Nodup
  | [], _ => List.nodup_nil
  | c :: rest, i => by
    simp only [mkPages, List.map_cons, List.nodup_cons]
    refine ⟨fun hmem => ?_, mkPages_pageNums_nodup p h now rest (i + 1)⟩
    rcases List.mem_map.1 hmem with ⟨r, hr, hrn⟩
    have := mkPages_mem p h now rest (i + 1) r hr
    omega

/-! ### Characterising `UpsertPDFData` -/

/-- Whether any of the `n` insert steps starting at loop index `i` has an
injected failure. -/
def anyInsertFail (fail : UpsertFail) : Nat → Nat → Bool
  | _, 0 => false
  | i, n + 1 => fail.insertFails i || anyInsertFail fail (i + 1) n

/-- Whether a call to `UpsertPDFData` with `n` pages runs with no injected
failure at any step. -/
def upsertOk (fail : UpsertFail) (n : Nat) : Bool :=
  !fail.beginFails && !fail.deleteFails && !fail.prepareFails &&
    !anyInsertFail fail 0 n && !fail.commitFails

theorem delete_no_path (st : DBState) (p : String) :
    ∀ r ∈ (deletePagesForPath st p).pdfs, r.path ≠ p := by
  intro r hr
  simp only [deletePagesForPath, List.mem_filter, bne_iff_ne, ne_eq] at hr
  exact hr.2

theorem insertPages_eq (fail : UpsertFail) (p h : String) (now : Nat) :
    ∀ (cs : List String) (i : Nat) (tx : DBState),
      (∀ r ∈ tx.pdfs, r.path = p → r.pageNum ≤ i) →
      insertPages fail p h now tx i cs =
        if anyInsertFail fail i cs.length then none
        else some ⟨tx.pdfs ++ mkPages p h now i cs,
                   tx.fts ++ (mkPages p h now i cs).map Page.toEntry⟩
  | [], i, tx, _ => by simp [insertPages, anyInsertFail, mkPages]
  | c :: rest, i, tx, hbound => by
    simp only [insertPages, List.length_cons, anyInsertFail, mkPages]
    cases hf : fail.insertFails i with
    | true => simp
    | false =>
      have hnoconf :
          tx.pdfs.any (fun r0 => r0.key == (Page.mk p (i + 1) h c now).key) = false := by
        simp only [List.any_eq_false]
        intro r0 hr0
        simp only [Page.key, beq_iff_eq, Prod.mk.injEq, not_and]
        intro hpath
        have := hbound r0 hr0 hpath
        omega
      have hbound' :
          ∀ r ∈ (DBState.mk (tx.pdfs ++ [Page.mk p (i + 1) h c now])
              (tx.fts ++ [(Page.mk p (i + 1) h c now).toEntry])).pdfs,
            r.path = p → r.pageNum ≤ i + 1 := by
        intro r hr hpath
        rcases List.mem_append.1 hr with hr | hr
        · exact Nat.le_succ_of_le (hbound r hr hpath)
        · simp only [List.mem_singleton] at hr
          subst hr
          exact Nat.le_refl _
      have ih := insertPages_eq fail p h now rest (i + 1) _ hbound'
      simp only [Bool.false_eq_true, if_false, insertPage, hnoconf, ih]
      cases anyInsertFail fail (i + 1) rest.length with
      | true => simp
      | false => simp [List.append_assoc]

theorem upsert_success_eq (fail : UpsertFail) (st : DBState) (p h : String)
    (cs : List String) (now : Nat) (hok : upsertOk fail cs.length = true) :
    UpsertPDFData fail st p h cs now =
      (⟨(deletePagesForPath st p).pdfs ++ mkPages p h now 0 cs,
        (deletePagesForPath st p).fts ++ (mkPages p h now 0 cs).map Page.toEntry⟩,
       none) := by
  simp only [upsertOk, Bool.and_eq_true, Bool.not_eq_true'] at hok
  obtain ⟨⟨⟨⟨hb, hd⟩, hp⟩, hins⟩, hc⟩ := hok
  have hbound : ∀ r ∈ (deletePagesForPath st p).pdfs, r.path = p → r.pageNum ≤ 0 :=
    fun r hr hpath => absurd hpath (delete_no_path st p r hr)
  simp [UpsertPDFData, hb, hd, hp, hc,
    insertPages_eq fail p h now cs 0 (deletePagesForPath st p) hbound, hins]

theorem upsert_fail_state (fail : UpsertFail) (st : DBState) (p h : String)
    (cs : List String) (now : Nat) (hfail : upsertOk fail cs.length = false) :
    (UpsertPDFData fail st p h cs now).1 = st ∧
    ((UpsertPDFData fail st p h cs now).2).isSome = true := by
  have hbound : ∀ r ∈ (deletePagesForPath st p).pdfs, r.path = p → r.pageNum ≤ 0 :=
    fun r hr hpath => absurd hpath (delete_no_path st p r hr)
  have hins := insertPages_eq fail p h now cs 0 (deletePagesForPath st p) hbound
  simp only [upsertOk, Bool.and_eq_false_iff, Bool.not_eq_false'] at hfail
  rcases hfail with ⟨⟨⟨hb | hd⟩ | hp⟩ | hi⟩ | hc <;>
    by_cases hb' : fail.beginFails <;>
    by_cases hd' : fail.deleteFails <;>
    by_cases hp' : fail.prepareFails <;>
    cases hi' : anyInsertFail fail 0 cs.length <;>
    simp_all [UpsertPDFData]

theorem upsert_ok_iff (fail : UpsertFail) (st : DBState) (p h : String)
    (cs : List String) (now : Nat) :
    (UpsertPDFData fail st p h cs now).2 = none ↔ upsertOk fail cs.length = true := by
  constructor
  · intro hnone
    by_contra hne
    have := (upsert_fail_state fail st p h cs now (by simpa using hne)).2
    rw [hnone] at this
    simp at this
  · intro hok
    rw [upsert_success_eq fail st p h cs now hok]

theorem upsert_err_state (fail : UpsertFail) (st : DBState) (p h : String)
    (cs : List String) (now : Nat)
    (hsome : ((UpsertPDFData fail st p h cs now).2).isSome = true) :
    (UpsertPDFData fail st p h cs now).1 = st := by
  cases hok : upsertOk fail cs.length with
  | true =>
    rw [upsert_success_eq fail st p h cs now hok] at hsome
    simp at hsome
  | false => exact (upsert_fail_state fail st p h cs now hok).1

/-! ### Store invariants -/

/-- Index synchronization: the `pdfs_fts` table holds exactly the rows the
triggers derive from the `pdfs` table, in table order. -/
def Synced (st : DBState) : Prop := st.fts = st.pdfs.map Page.toEntry

/-- Primary-key uniqueness of the `pdfs` table on `(path, page_num)`. -/
def KeysNodup (st : DBState) : Prop := (st.pdfs.map Page.key).Nodup

/-- All pages of one path carry the same hash. -/
def SameHash (st : DBState) : Prop :=
  ∀ r ∈ st.pdfs, ∀ r' ∈ st.pdfs, r.path = r'.path → r.hash = r'.hash

theorem synced_empty : Synced emptyDB := rfl

theorem keysNodup_empty : KeysNodup emptyDB := List.nodup_nil

theorem sameHash_empty : SameHash emptyDB := by intro r hr; simp [emptyDB] at hr

theorem synced_delete (st : DBState) (p : String) (hs : Synced st) :
    Synced (deletePagesForPath st p) := by
  unfold Synced at *
  simp only [deletePagesForPath, hs]
  rw [List.filter_map]
  congr 1
  apply List.filter_congr
  intro r hr
  simp only [Function.comp_apply]
  cases hrp : r.path == p with
  | true =>
    have hany : (List.filter (fun r0 => r0.path == p) st.pdfs).any
        (fun r0 => r0.key == (Page.toEntry r).key) = true := by
      apply List.any_eq_true.2
      exact ⟨r, List.mem_filter.2 ⟨hr, hrp⟩, by simp [Page.key, Page.toEntry, IndexEntry.key]⟩
    simp only [hany, Bool.not_true, bne, hrp]
  | false =>
    have hany : (List.filter (fun r0 => r0.path == p) st.pdfs).any
        (fun r0 => r0.key == (Page.toEntry r).key) = false := by
      simp only [List.any_eq_false]
      intro r0 hr0
      have h0 : (r0.path == p) = true := (List.mem_filter.1 hr0).2
      simp only [Page.key, Page.toEntry, IndexEntry.key, beq_iff_eq, Prod.mk.injEq, not_and]
      intro hkey
      exfalso
      exact absurd (beq_iff_eq.2 (hkey ▸ h0)) (by simp [hrp])
    simp only [hany, Bool.not_false, bne, hrp]

theorem keysNodup_delete (st : DBState) (p : String) (hn : KeysNodup st) :
    KeysNodup (deletePagesForPath st p) := by
  unfold KeysNodup at *
  exact hn.sublist ((List.filter_sublist _).map Page.key)

theorem sameHash_delete (st : DBState) (p : String) (hh : SameHash st) :
    SameHash (deletePagesForPath st p) := by
  intro r hr r' hr' hpath
  exact hh r (List.mem_of_mem_filter hr) r' (List.mem_of_mem_filter hr') hpath

theorem mkPages_keys_nodup (p h : String) (now : Nat) (cs : List String) (i : Nat) :
    ((mkPages p h now i cs).map Page.key).Nodup := by
  have heq : (mkPages p h now i cs).map Page.key
      = ((mkPages p h now i cs).map Page.pageNum).map (fun n => (p, n)) := by
    rw [List.map_map]
    apply List.map_congr_left
    intro r hr
    have := (mkPages_mem p h now cs i r hr).1
    simp [Page.key, this]
  rw [heq]
  exact (mkPages_pageNums_nodup p h now cs i).map
    (fun a b hab => by simpa using congrArg Prod.snd hab)

theorem synced_upsert (fail : UpsertFail) (st : DBState) (p h : String)
    (cs : List String) (now : Nat) (hs : Synced st) :
    Synced (UpsertPDFData fail st p h cs now).1 := by
  cases hok : upsertOk fail cs.length with
  | false => rw [(upsert_fail_state fail st p h cs now hok).1]; exact hs
  | true =>
    rw [upsert_success_eq fail st p h cs now hok]
    show _ = _
    simp only [List.map_append]
    rw [synced_delete st p hs]

theorem keysNodup_upsert (fail : UpsertFail) (st : DBState) (p h : String)
    (cs : List String) (now : Nat) (hn : KeysNodup st) :
    KeysNodup (UpsertPDFData fail st p h cs now).1 := by
  cases hok : upsertOk fail cs.length with
  | false => rw [(upsert_fail_state fail st p h cs now hok).1]; exact hn
  | true =>
    rw [upsert_success_eq fail st p h cs now hok]
    show (((deletePagesForPath st p).pdfs ++ mkPages p h now 0 cs).map Page.key).Nodup
    rw [List.map_append, List.nodup_append]
    refine ⟨keysNodup_delete st p hn, mkPages_keys_nodup p h now cs 0, ?_⟩
    intro a ha hb
    rcases List.mem_map.1 ha with ⟨r, hr, rfl⟩
    rcases List.mem_map.1 hb with ⟨r', hr', hkey⟩
    have h1 : r.path ≠ p := delete_no_path st p r hr
    have h2 : r'.path = p := (mkPages_mem p h now cs 0 r' hr').1
    have : r'.path = r.path := congrArg Prod.fst hkey
    exact h1 (by rw [← this, h2])

theorem sameHash_upsert (fail : UpsertFail) (st : DBState) (p h : String)
    (cs : List String) (now : Nat) (hh : SameHash st) :
    SameHash (UpsertPDFData fail st p h cs now).1 := by
  cases hok : upsertOk fail cs.length with
  | false => rw [(upsert_fail_state fail st p h cs now hok).1]; exact hh
  | true =>
    rw [upsert_success_eq fail st p h cs now hok]
    intro r hr r' hr' hpath
    rcases List.mem_append.1 hr with hr1 | hr1 <;> rcases List.mem_append.1 hr' with hr2 | hr2
    · exact sameHash_delete st p hh r hr1 r' hr2 hpath
    · exact absurd ((mkPages_mem p h now cs 0 r' hr2).1 ▸ hpath)
        (delete_no_path st p r hr1)
    · exact absurd ((mkPages_mem p h now cs 0 r hr1).1 ▸ hpath.symm)
        (delete_no_path st p r' hr2)
    · rw [(mkPages_mem p h now cs 0 r hr1).2.1, (mkPages_mem p h now cs 0 r' hr2).2.1]

/-! ### Sequences of store operations -/

/-- A mutating store operation: a document upsert (the only `pdfs` writer) or
an FTS rebuild. -/
inductive Op where
  | upsertDoc (fail : UpsertFail) (path hash : String) (pages : List String) (now : Nat)
  | rebuild (fails : Bool)

/-- Run one operation against the store, keeping the committed state. -/
def applyOp (st : DBState) : Op → DBState
  | .upsertDoc fail p h cs now => (UpsertPDFData fail st p h cs now).1
  | .rebuild b => (RebuildFTS b st).1

/-- Run a sequence of operations starting from a freshly initialised store. -/
def applyOps (ops : List Op) : DBState := ops.foldl applyOp emptyDB

/-- The three standing invariants, bundled. -/
def StoreInv (st : DBState) : Prop := Synced st ∧ KeysNodup st ∧ SameHash st

theorem storeInv_applyOp (st : DBState) (op : Op) (hi : StoreInv st) :
    StoreInv (applyOp st op) := by
  obtain ⟨hs, hn, hh⟩ := hi
  cases op with
  | upsertDoc fail p h cs now =>
    exact ⟨synced_upsert fail st p h cs now hs, keysNodup_upsert fail st p h cs now hn,
      sameHash_upsert fail st p h cs now hh⟩
  | rebuild b =>
    cases b with
    | true => exact ⟨hs, hn, hh⟩
    | false => exact ⟨rfl, hn, fun r hr r' hr' => hh r hr r' hr'⟩

theorem storeInv_foldl (ops : List Op) :
    ∀ st : DBState, StoreInv st → StoreInv (ops.foldl applyOp st) := by
  induction ops with
  | nil => exact fun st h => h
  | cons op rest ih => exact fun st h => ih (applyOp st op) (storeInv_applyOp st op h)

theorem storeInv_applyOps (ops : List Op) : StoreInv (applyOps ops) :=
  storeInv_foldl ops emptyDB ⟨synced_empty, keysNodup_empty, sameHash_empty⟩

theorem synced_applyOps (ops : List Op) : Synced (applyOps ops) :=
  (storeInv_applyOps ops).1

/-! ### `GetStoredHash` after an upsert -/

theorem getStoredHash_delete (st : DBState) (p : String) :
    GetStoredHash (deletePagesForPath st p) p = "" := by
  unfold GetStoredHash
  have : (deletePagesForPath st p).pdfs.find? (fun r => r.path == p) = none := by
    rw [List.find?_eq_none]
    intro r hr
    simp [delete_no_path st p r hr]
  rw [this]

theorem getStoredHash_upsert_success (fail : UpsertFail) (st : DBState) (p h : String)
    (cs : List String) (now : Nat) (hok : (UpsertPDFData fail st p h cs now).2 = none)
    (hne : cs ≠ []) :
    GetStoredHash (UpsertPDFData fail st p h cs now).1 p = h := by
  rw [upsert_success_eq fail st p h cs now ((upsert_ok_iff fail st p h cs now).1 hok)]
  unfold GetStoredHash
  simp only [List.find?_append]
  have h1 : (deletePagesForPath st p).pdfs.find? (fun r => r.path == p) = none := by
    rw [List.find?_eq_none]
    intro r hr
    simp [delete_no_path st p r hr]
  cases cs with
  | nil => exact absurd rfl hne
  | cons c rest => simp [h1, mkPages, List.find?_cons]

theorem getStoredHash_upsert_empty (fail : UpsertFail) (st : DBState) (p h : String)
    (now : Nat) (hok : (UpsertPDFData fail st p h [] now).2 = none) :
    GetStoredHash (UpsertPDFData fail st p h [] now).1 p = "" := by
  rw [upsert_success_eq fail st p h [] now ((upsert_ok_iff fail st p h [] now).1 hok)]
  unfold GetStoredHash
  simp only [mkPages, List.append_nil]
  have h1 : (deletePagesForPath st p).pdfs.find? (fun r => r.path == p) = none := by
    rw [List.find?_eq_none]
    intro r hr
    simp [delete_no_path st p r hr]
  rw [h1]

/-! ### The scan pipeline (internal/cmd/scan.go) -/

/-- `PDFFileInfo` from scan.go. -/
structure PDFFileInfo where
  path : String
  currentHash : String
  storedHash : String
  needsUpdate : Bool
deriving DecidableEq

/-- Environment for the hash-checking phase: `hashFile` is
`Extractor.HashFile` (`none` models an I/O error), `storedHashErr` injects a
database error into `GetStoredHash`. -/
structure ScanEnv where
  hashFile : String → Option String
  storedHashErr : String → Bool

/-- The body of the `checkHashes` loop for one path: compute the current
hash, read the stored hash, and select the file iff
`forceRescan || currentHash != storedHash`; a hash or database failure logs
a warning and skips the file (`none`). -/
def checkHashFile (env : ScanEnv) (db : DBState) (forceRescan : Bool) (path : String) :
    Option PDFFileInfo :=
  match env.hashFile path with
  | none => none
  | some currentHash =>
    if env.storedHashErr path then none
    else
      let storedHash := GetStoredHash db path
      if forceRescan || currentHash != storedHash then
        some ⟨path, currentHash, storedHash, true⟩
      else none

/-- `checkHashes`: phase 2 of the scan, returning the files to process. -/
def checkHashes (env : ScanEnv) (db : DBState) (pdfFiles : List String)
    (forceRescan : Bool) : List PDFFileInfo :=
  pdfFiles.filterMap (checkHashFile env db forceRescan)

/-- Environment for the processing phase: `extractPages` is
`Extractor.ExtractPagesText` (`none` models a per-document extraction
failure), `upsertFail` gives the injected store failures for each path, and
`now` the timestamp at which each path is processed. -/
structure ProcEnv where
  extractPages : String → Option (List String)
  upsertFail : String → UpsertFail
  now : String → Nat

/-- The body of the `processPDFs` loop for one file: extract the page texts
and upsert them; on extraction or store failure the document is skipped
(store unchanged, not counted), otherwise it is counted as processed. -/
def processOne (env : ProcEnv) (st : DBState) (info : PDFFileInfo) : DBState × Bool :=
  match env.extractPages info.path with
  | none => (st, false)
  | some pageContents =>
    let res := UpsertPDFData (env.upsertFail info.path) st info.path info.currentHash
      pageContents (env.now info.path)
    match res.2 with
    | some _ => (res.1, false)
    | none => (res.1, true)

/-- `processPDFs`: phase 3 of the scan, returning the final store and the
`processedCount` of successfully updated documents. -/
def processPDFs (env : ProcEnv) (st : DBState) (files : List PDFFileInfo) : DBState × Nat :=
  files.foldl (fun acc info =>
    let r := processOne env acc.1 info
    (r.1, acc.2 + if r.2 then 1 else 0)) (st, 0)

/-- Whether the processing phase fully succeeds for one file: extraction
succeeds and no store step fails. -/
def docOK (env : ProcEnv) (info : PDFFileInfo) : Bool :=
  match env.extractPages info.path with
  | none => false
  | some cs => upsertOk (env.upsertFail info.path) cs.length

theorem processOne_snd (env : ProcEnv) (st : DBState) (info : PDFFileInfo) :
    (processOne env st info).2 = docOK env info := by
  unfold processOne docOK
  cases hext : env.extractPages info.path with
  | none => rfl
  | some cs =>
    simp only
    cases hok : upsertOk (env.upsertFail info.path) cs.length with
    | true =>
      have := (upsert_ok_iff (env.upsertFail info.path) st info.path info.currentHash
        cs (env.now info.path)).2 hok
      rw [this]
    | false =>
      have h2 := (upsert_fail_state (env.upsertFail info.path) st info.path
        info.currentHash cs (env.now info.path) hok).2
      cases herr : (UpsertPDFData (env.upsertFail info.path) st info.path
          info.currentHash cs (env.now info.path)).2 with
      | none => rw [herr] at h2; simp at h2
      | some e => rfl

theorem processOne_fail_state (env : ProcEnv) (st : DBState) (info : PDFFileInfo)
    (hfail : docOK env info = false) : (processOne env st info).1 = st := by
  unfold processOne
  unfold docOK at hfail
  cases hext : env.extractPages info.path with
  | none => rfl
  | some cs =>
    rw [hext] at hfail
    simp only at hfail
    have h1 := (upsert_fail_state (env.upsertFail info.path) st info.path
      info.currentHash cs (env.now info.path) hfail).1
    have h2 := (upsert_fail_state (env.upsertFail info.path) st info.path
      info.currentHash cs (env.now info.path) hfail).2
    simp only
    cases herr : (UpsertPDFData (env.upsertFail info.path) st info.path
        info.currentHash cs (env.now info.path)).2 with
    | none => rw [herr] at h2; simp at h2
    | some e => exact h1

theorem processPDFs_foldl (env : ProcEnv) :
    ∀ (files : List PDFFileInfo) (st : DBState) (c : Nat),
      files.foldl (fun acc info =>
          let r := processOne env acc.1 info
          (r.1, acc.2 + if r.2 then 1 else 0)) (st, c)
        = ((files.filter (docOK env)).foldl
            (fun s info => (processOne env s info).1) st,
           c + files.countP (docOK env)) := by
  intro files
  induction files with
  | nil => intro st c; simp
  | cons info rest ih =>
    intro st c
    simp only [List.foldl_cons]
    cases hok : docOK env info with
    | true =>
      rw [ih]
      have hsnd : (processOne env st info).2 = true := by rw [processOne_snd, hok]
      simp [List.filter_cons, List.countP_cons, hok, hsnd, Nat.add_comm, Nat.add_assoc,
        Nat.add_left_comm]
    | false =>
      have hsnd : (processOne env st info).2 = false := by rw [processOne_snd, hok]
      have hst : (processOne env st info).1 = st := processOne_fail_state env st info hok
      rw [hsnd, hst, ih]
      simp [List.filter_cons, List.countP_cons, hok]

/-! ### The query engine (`Search`, `LiveSearch`) -/

/-- A row returned by `Search`: `p.path, p.page_num, snippet(...), p.last_scanned`. -/
structure SearchRow where
  path : String
  pageNum : Nat
  snippet : String
  lastScanned : Nat
deriving DecidableEq

/-- A row returned by `LiveSearch`: `p.path, p.page_num, snippet(...)`. -/
structure LiveRow where
  path : String
  pageNum : Nat
  snippet : String
deriving DecidableEq

/-- The external FTS5 engine behaviour: query-syntax validity, the `MATCH`
predicate against a row's `content_idx`, the `snippet(tbl, 2, start, end,
ellipsis, tokens)` function, and the `rank` value of a matching row. -/
structure FtsEngine where
  syntaxOK : String → Bool
  matchesQ : String → String → Bool
  snippetOf : String → String → String → Nat → String → String → String
  rankOf : String → String → Int

/-- `ORDER BY p.path, p.page_num`. -/
def rowLE (a b : SearchRow) : Bool :=
  decide (a.path < b.path) || (decide (a.path = b.path) && decide (a.pageNum ≤ b.pageNum))

/-- `ORDER BY rank` on (rank, row) pairs. -/
def rankLE {α : Type} (a b : Int × α) : Bool := decide (a.1 ≤ b.1)

/-- SQLite `LIMIT ?`: a negative limit means no limit. -/
def applyLimit {α : Type} (limit : Int) (rows : List α) : List α :=
  if limit < 0 then rows else rows.take limit.toNat

/-- The `FROM pdfs_fts JOIN pdfs AS p ON pdfs_fts.path = p.path AND
pdfs_fts.page_num = p.page_num WHERE pdfs_fts MATCH ?` rows of `Search`,
with the selected columns. -/
def searchJoin (eng : FtsEngine) (st : DBState) (queryTerm : String) : List SearchRow :=
  (st.fts.filter (fun e => eng.matchesQ queryTerm e.content_idx)).flatMap
    (fun e =>
      (st.pdfs.filter (fun r => r.path == e.path && r.pageNum == e.pageNum)).map
        (fun r => SearchRow.mk r.path r.pageNum
          (eng.snippetOf "[HL]" "[/HL]" "..." 25 queryTerm e.content_idx) r.lastScanned))

/-- `Search(queryTerm, limit)`: join `pdfs_fts MATCH ?` with `pdfs` on
`(path, page_num)`, select path, page number,
`snippet(pdfs_fts, 2, '[HL]', '[/HL]', '...', 25)` and `last_scanned`,
`ORDER BY p.path, p.page_num LIMIT ?`. -/
def Search (eng : FtsEngine) (st : DBState) (queryTerm : String) (limit : Int) :
    Except String (List SearchRow) :=
  if !eng.syntaxOK queryTerm then .error "fts5: syntax error"
  else .ok (applyLimit limit ((searchJoin eng st queryTerm).mergeSort rowLE))

/-- The join rows of `LiveSearch`, paired with their `rank` value (used by
`ORDER BY rank` and not selected). -/
def liveJoin (eng : FtsEngine) (st : DBState) (queryTerm : String) : List (Int × LiveRow) :=
  (st.fts.filter (fun e => eng.matchesQ queryTerm e.content_idx)).flatMap
    (fun e =>
      (st.pdfs.filter (fun r => r.path == e.path && r.pageNum == e.pageNum)).map
        (fun r => (eng.rankOf queryTerm e.content_idx,
          LiveRow.mk r.path r.pageNum
            (eng.snippetOf ">>>" "<<<" " ... " 15 queryTerm e.content_idx))))

/-- `LiveSearch(queryTerm, limit)`: returns no rows and no error for the
empty query; otherwise the same join with
`snippet(pdfs_fts, 2, '>>>', '<<<', ' ... ', 15)`, `ORDER BY rank LIMIT ?`. -/
def LiveSearch (eng : FtsEngine) (st : DBState) (queryTerm : String) (limit : Int) :
    Except String (List LiveRow) :=
  if queryTerm == "" then .ok []
  else if !eng.syntaxOK queryTerm then .error "fts5: syntax error"
  else .ok (applyLimit limit (((liveJoin eng st queryTerm).mergeSort rankLE).map Prod.snd))

theorem applyLimit_sublist {α : Type} (limit : Int) (rows : List α) :
    (applyLimit limit rows).Sublist rows := by
  unfold applyLimit
  split
  · exact List.Sublist.refl rows
  · exact List.take_sublist _ rows

theorem rowLE_trans (a b c : SearchRow) (hab : rowLE a b = true) (hbc : rowLE b c = true) :
    rowLE a c = true := by
  simp only [rowLE, Bool.or_eq_true, Bool.and_eq_true, decide_eq_true_eq] at *
  rcases hab with hab | ⟨hab, hab'⟩ <;> rcases hbc with hbc | ⟨hbc, hbc'⟩
  · exact Or.inl (lt_trans hab hbc)
  · exact Or.inl (hbc ▸ hab)
  · exact Or.inl (hab ▸ hbc)
  · exact Or.inr ⟨hab.trans hbc, le_trans hab' hbc'⟩

theorem rowLE_total (a b : SearchRow) : rowLE a b = true ∨ rowLE b a = true := by
  simp only [rowLE, Bool.or_eq_true, Bool.and_eq_true, decide_eq_true_eq]
  rcases lt_trichotomy a.path b.path with h | h | h
  · exact Or.inl (Or.inl h)
  · rcases Nat.le_total a.pageNum b.pageNum with h' | h'
    · exact Or.inl (Or.inr ⟨h, h'⟩)
    · exact Or.inr (Or.inr ⟨h.symm, h'⟩)
  · exact Or.inr (Or.inl h)

theorem rankLE_trans {α : Type} (a b c : Int × α) (hab : rankLE a b = true)
    (hbc : rankLE b c = true) : rankLE a c = true := by
  simp only [rankLE, decide_eq_true_eq] at *
  omega

theorem rankLE_total {α : Type} (a b : Int × α) : rankLE a b = true ∨ rankLE b a = true := by
  simp only [rankLE, decide_eq_true_eq]
  omega

/-! ### Concrete instances used by witnesses -/

/-- An upsert failure specification whose only failing step is `Commit`. -/
def commitFailUpsert : UpsertFail := ⟨false, false, false, fun _ => false, true⟩

/-- A hash-checking environment where every file hashes to `"h1"` and the
stored-hash read never fails. -/
def envW : ScanEnv := ⟨fun _ => some "h1", fun _ => false⟩

/-- A hash-checking environment where hashing always fails. -/
def envNoneW : ScanEnv := ⟨fun _ => none, fun _ => false⟩

/-- A processing environment where extraction yields one page and the store
never fails. -/
def procEnvW : ProcEnv := ⟨fun _ => some ["x"], fun _ => noUpsertFail, fun _ => 0⟩

/-- A concrete FTS engine where every query is well-formed and matches every
row, snippets wrap the content in the given markers, and all ranks are 0. -/
def engW : FtsEngine :=
  ⟨fun _ => true, fun _ _ => true, fun s e _el _t _q c => s ++ c ++ e, fun _ _ => 0⟩

/-! ### Claim theorems -/

/-- C1: `UpsertPDFData` is all-or-nothing.  A successful call leaves, for the
given path, exactly one `pdfs` row per entry of `pageContents`, in order,
numbered `1..n`, each carrying the given hash and timestamp, while rows of
every other path are untouched; any failing step makes the call return an
error with the store exactly as before the call. -/
theorem upsertPDFData_all_or_nothing (fail : UpsertFail) (st : DBState)
    (p h : String) (pages : List String) (now : Nat) :
    (((UpsertPDFData fail st p h pages now).2).isSome = true →
      (UpsertPDFData fail st p h pages now).1 = st) ∧
    ((UpsertPDFData fail st p h pages now).2 = none →
      ((UpsertPDFData fail st p h pages now).1.pdfs.filter
          (fun r => r.path == p)).length = pages.length ∧
      (∀ (j : Nat) (c : String), pages.get? j = some c →
        ((UpsertPDFData fail st p h pages now).1.pdfs.filter
            (fun r => r.path == p)).get? j = some ⟨p, j + 1, h, c, now⟩) ∧
      (UpsertPDFData fail st p h pages now).1.pdfs.filter (fun r => r.path != p)
        = st.pdfs.filter (fun r => r.path != p)) := by
  refine ⟨upsert_err_state fail st p h pages now, fun hok => ?_⟩
  have hfilter1 : (deletePagesForPath st p).pdfs.filter (fun r => r.path == p) = [] := by
    rw [List.filter_eq_nil_iff]
    intro r hr
    simp [delete_no_path st p r hr]
  have hfilter2 : (mkPages p h now 0 pages).filter (fun r => r.path == p)
      = mkPages p h now 0 pages := by
    rw [List.filter_eq_self]
    intro r hr
    simp [(mkPages_mem p h now pages 0 r hr).1]
  have hfilter3 : (mkPages p h now 0 pages).filter (fun r => r.path != p) = [] := by
    rw [List.filter_eq_nil_iff]
    intro r hr
    simp [(mkPages_mem p h now pages 0 r hr).1]
  have hfilter4 : (deletePagesForPath st p).pdfs.filter (fun r => r.path != p)
      = (deletePagesForPath st p).pdfs := by
    rw [List.filter_eq_self]
    intro r hr
    simp [delete_no_path st p r hr]
  have hfl : (UpsertPDFData fail st p h pages now).1.pdfs.filter (fun r => r.path == p)
      = mkPages p h now 0 pages := by
    rw [upsert_success_eq fail st p h pages now
      ((upsert_ok_iff fail st p h pages now).1 hok)]
    simp only [List.filter_append, hfilter1, hfilter2, List.nil_append]
  have hfl2 : (UpsertPDFData fail st p h pages now).1.pdfs.filter (fun r => r.path != p)
      = st.pdfs.filter (fun r => r.path != p) := by
    rw [upsert_success_eq fail st p h pages now
      ((upsert_ok_iff fail st p h pages now).1 hok)]
    simp only [List.filter_append, hfilter3, hfilter4, List.append_nil]
    simp [deletePagesForPath]
  refine ⟨by rw [hfl]; exact mkPages_length p h now pages 0, ?_, hfl2⟩
  intro j c hc
  rw [hfl, mkPages_get? p h now pages 0 j, hc]
  simp

/-- Witness for C1: a commit failure rolls the store back, and a clean call
on an empty store stores exactly one page row. -/
theorem upsertPDFData_all_or_nothing_witness :
    (UpsertPDFData commitFailUpsert emptyDB "a.pdf" "h1" ["x"] 0).1 = emptyDB ∧
    ((UpsertPDFData noUpsertFail emptyDB "a.pdf" "h1" ["x"] 0).1.pdfs.filter
        (fun r => r.path == "a.pdf")).length = ["x"].length :=
  ⟨(upsertPDFData_all_or_nothing commitFailUpsert emptyDB "a.pdf" "h1" ["x"] 0).1
      (by decide),
   ((upsertPDFData_all_or_nothing noUpsertFail emptyDB "a.pdf" "h1" ["x"] 0).2
      (by decide)).1⟩

/-- C3: change detection.  When hashing and the stored-hash read succeed, a
file is left out of the work list (classified unchanged) iff `forceRescan`
is false and the computed hash equals the stored one. -/
theorem checkHashFile_unchanged_iff (env : ScanEnv) (db : DBState) (forced : Bool)
    (path h : String) (hhash : env.hashFile path = some h)
    (hdb : env.storedHashErr path = false) :
    checkHashFile env db forced path = none ↔
      (forced = false ∧ h = GetStoredHash db path) := by
  cases forced with
  | true => simp [checkHashFile, hhash, hdb]
  | false =>
    by_cases heq : h = GetStoredHash db path <;>
      simp [checkHashFile, hhash, hdb, heq, bne]

/-- Witness for C3 at a concrete unchanged store. -/
theorem checkHashFile_unchanged_iff_witness :
    checkHashFile envW (UpsertPDFData noUpsertFail emptyDB "a.pdf" "h1" ["x"] 0).1
        false "a.pdf" = none ↔
      (false = false ∧
        "h1" = GetStoredHash (UpsertPDFData noUpsertFail emptyDB "a.pdf" "h1" ["x"] 0).1
          "a.pdf") :=
  checkHashFile_unchanged_iff envW _ false "a.pdf" "h1" rfl rfl

/-- C4 (counterexample): a zero-page document breaks scan idempotence.
Upserting path `"a.pdf"` with fingerprint `"h1"` and no pages succeeds, but
the stored fingerprint then reads back as `""`, not `"h1"`, so an immediate
re-scan with an unchanged filesystem selects the file again instead of
classifying it unchanged. -/
theorem upsert_then_stale_counterexample :
    (UpsertPDFData noUpsertFail emptyDB "a.pdf" "h1" ([] : List String) 0).2 = none ∧
    GetStoredHash (UpsertPDFData noUpsertFail emptyDB "a.pdf" "h1" ([] : List String) 0).1
        "a.pdf" ≠ "h1" ∧
    checkHashFile envW
        (UpsertPDFData noUpsertFail emptyDB "a.pdf" "h1" ([] : List String) 0).1
        false "a.pdf"
      = some ⟨"a.pdf", "h1", "", true⟩ := by
  decide

/-- C4 (amended): for documents with a nonempty page sequence, scan is
idempotent.  After a successful `UpsertPDFData(path, h, pages)` with
`pages ≠ []`, the stored fingerprint reads back as `h`, so a repeated scan
over an unchanged filesystem (same computed hash `h`, no `--force`)
classifies the path unchanged and processes nothing for it. -/
theorem upsert_then_unchanged (fail : UpsertFail) (st : DBState) (env : ScanEnv)
    (p h : String) (pages : List String) (now : Nat)
    (hne : pages ≠ [])
    (hok : (UpsertPDFData fail st p h pages now).2 = none)
    (hfs : env.hashFile p = some h)
    (hdb : env.storedHashErr p = false) :
    GetStoredHash (UpsertPDFData fail st p h pages now).1 p = h ∧
    checkHashFile env (UpsertPDFData fail st p h pages now).1 false p = none := by
  have hg := getStoredHash_upsert_success fail st p h pages now hok hne
  exact ⟨hg, (checkHashFile_unchanged_iff env _ false p h hfs hdb).2 ⟨rfl, hg.symm⟩⟩

/-- Witness for the amended C4 at a concrete one-page document. -/
theorem upsert_then_unchanged_witness :
    GetStoredHash (UpsertPDFData noUpsertFail emptyDB "a.pdf" "h1" ["x"] 0).1 "a.pdf"
        = "h1" ∧
    checkHashFile envW (UpsertPDFData noUpsertFail emptyDB "a.pdf" "h1" ["x"] 0).1
        false "a.pdf" = none :=
  upsert_then_unchanged noUpsertFail emptyDB envW "a.pdf" "h1" ["x"] 0
    (by decide) (by decide) rfl rfl

/-- C9: single-fingerprint invariant.  After any sequence of store
operations from an empty store, all pages of one path carry the same hash,
and `GetStoredHash` (which reads the hash of an arbitrary single page,
`LIMIT 1`) therefore returns the hash of every page of the path. -/
theorem single_fingerprint_invariant (ops : List Op) :
    (∀ r ∈ (applyOps ops).pdfs, ∀ r' ∈ (applyOps ops).pdfs,
        r.path = r'.path → r.hash = r'.hash) ∧
    (∀ r ∈ (applyOps ops).pdfs, GetStoredHash (applyOps ops) r.path = r.hash) := by
  have hh := (storeInv_applyOps ops).2.2
  refine ⟨hh, fun r hr => ?_⟩
  unfold GetStoredHash
  cases hfind : (applyOps ops).pdfs.find? (fun r0 => r0.path == r.path) with
  | none =>
    rw [List.find?_eq_none] at hfind
    exact absurd (by simp) (hfind r hr)
  | some r0 =>
    exact hh r0 (List.mem_of_find?_eq_some hfind) r hr
      (by simpa using List.find?_some hfind)

/-- Witness for C9 on a store with one two-page document. -/
theorem single_fingerprint_invariant_witness :
    GetStoredHash (applyOps [Op.upsertDoc noUpsertFail "a.pdf" "h1" ["x", "y"] 0])
        (Page.mk "a.pdf" 2 "h1" "y" 0).path = (Page.mk "a.pdf" 2 "h1" "y" 0).hash :=
  (single_fingerprint_invariant [Op.upsertDoc noUpsertFail "a.pdf" "h1" ["x", "y"] 0]).2
    (Page.mk "a.pdf" 2 "h1" "y" 0) (by decide)

/-- C10: empty-page-set edge case.  On a store satisfying the
synchronization invariant, upserting a document with an empty page sequence
succeeds and leaves zero `pdfs` rows and zero `pdfs_fts` rows for the path;
the stored fingerprint then reads back as the absent value `""`, so a later
scan (no `--force`, any nonempty computed hash) selects the document again —
with stored hash `""`, i.e. classified as new. -/
theorem upsert_empty_pages (st : DBState) (env : ScanEnv) (p h h' : String) (now : Nat)
    (hsync : Synced st)
    (hfs : env.hashFile p = some h') (hne : h' ≠ "")
    (hdb : env.storedHashErr p = false) :
    (UpsertPDFData noUpsertFail st p h [] now).2 = none ∧
    (UpsertPDFData noUpsertFail st p h [] now).1.pdfs.filter (fun r => r.path == p)
      = [] ∧
    (UpsertPDFData noUpsertFail st p h [] now).1.fts.filter (fun e => e.path == p)
      = [] ∧
    GetStoredHash (UpsertPDFData noUpsertFail st p h [] now).1 p = "" ∧
    checkHashFile env (UpsertPDFData noUpsertFail st p h [] now).1 false p
      = some ⟨p, h', "", true⟩ := by
  have hok : (UpsertPDFData noUpsertFail st p h [] now).2 = none :=
    (upsert_ok_iff noUpsertFail st p h [] now).2 rfl
  have hsucc := upsert_success_eq noUpsertFail st p h [] now rfl
  refine ⟨hok, ?_, ?_, ?_, ?_⟩
  · rw [hsucc]
    simp only [mkPages, List.append_nil]
    rw [List.filter_eq_nil_iff]
    intro r hr
    simp [delete_no_path st p r hr]
  · rw [hsucc]
    simp only [mkPages, List.map_nil, List.append_nil]
    rw [List.filter_eq_nil_iff]
    intro e he
    have hdel := synced_delete st p hsync
    rw [hdel] at he
    rcases List.mem_map.1 he with ⟨r, hr, rfl⟩
    simp [Page.toEntry, delete_no_path st p r hr]
  · exact getStoredHash_upsert_empty noUpsertFail st p h now hok
  · have hg : GetStoredHash (UpsertPDFData noUpsertFail st p h [] now).1 p = "" :=
      getStoredHash_upsert_empty noUpsertFail st p h now hok
    have hb : (h' == "") = false := by
      simp [hne]
    simp [checkHashFile, hfs, hdb, hg, bne, hb]

/-- Witness for C10 on a synced one-document store. -/
theorem upsert_empty_pages_witness :
    (UpsertPDFData noUpsertFail
        (applyOps [Op.upsertDoc noUpsertFail "a.pdf" "h0" ["x"] 0]) "a.pdf" "h1" [] 1).2
      = none ∧
    (UpsertPDFData noUpsertFail
        (applyOps [Op.upsertDoc noUpsertFail "a.pdf" "h0" ["x"] 0]) "a.pdf" "h1"
        [] 1).1.pdfs.filter (fun r => r.path == "a.pdf") = [] ∧
    (UpsertPDFData noUpsertFail
        (applyOps [Op.upsertDoc noUpsertFail "a.pdf" "h0" ["x"] 0]) "a.pdf" "h1"
        [] 1).1.fts.filter (fun e => e.path == "a.pdf") = [] ∧
    GetStoredHash (UpsertPDFData noUpsertFail
        (applyOps [Op.upsertDoc noUpsertFail "a.pdf" "h0" ["x"] 0]) "a.pdf" "h1"
        [] 1).1 "a.pdf" = "" ∧
    checkHashFile envW (UpsertPDFData noUpsertFail
        (applyOps [Op.upsertDoc noUpsertFail "a.pdf" "h0" ["x"] 0]) "a.pdf" "h1"
        [] 1).1 false "a.pdf" = some ⟨"a.pdf", "h1", "", true⟩ :=
  upsert_empty_pages (applyOps [Op.upsertDoc noUpsertFail "a.pdf" "h0" ["x"] 0])
    envW "a.pdf" "h1" "h1" 1
    (synced_applyOps [Op.upsertDoc noUpsertFail "a.pdf" "h0" ["x"] 0])
    rfl (by decide) rfl

/-! ### Remaining claim theorems -/

theorem countP_key_eq_one (l : List Page) (hn : (l.map Page.key).Nodup)
    (pg : Page) (hpg : pg ∈ l) :
    l.countP (fun r => r.path == pg.path && r.pageNum == pg.pageNum) = 1 := by
  have h1 : l.countP (fun r => r.path == pg.path && r.pageNum == pg.pageNum)
      = (l.map Page.key).countP (fun k => decide (k = Page.key pg)) := by
    rw [List.countP_map]
    apply List.countP_congr
    intro r _
    simp [Page.key, Function.comp, Prod.ext_iff]
  rw [h1]
  have h2 : Page.key pg ∈ l.map Page.key := List.mem_map_of_mem _ hpg
  exact List.count_eq_one_of_mem hn h2

/-- C2: the Page/IndexEntry bijection is an invariant of every operation
sequence.  After any sequence of upserts and rebuilds from an empty store,
every `pdfs` row has exactly one `pdfs_fts` row with its `(path, page_num)`
key, every key-matching `pdfs_fts` row carries the page's content, and every
`pdfs_fts` row has exactly one key-matching `pdfs` row. -/
theorem page_index_bijection (ops : List Op) :
    (∀ pg ∈ (applyOps ops).pdfs,
      ((applyOps ops).fts.filter
          (fun e => e.path == pg.path && e.pageNum == pg.pageNum)).length = 1 ∧
      (∀ e ∈ (applyOps ops).fts,
        e.path = pg.path → e.pageNum = pg.pageNum → e.content_idx = pg.content)) ∧
    (∀ e ∈ (applyOps ops).fts,
      ((applyOps ops).pdfs.filter
          (fun r => r.path == e.path && r.pageNum == e.pageNum)).length = 1) := by
  obtain ⟨hs, hn, -⟩ := storeInv_applyOps ops
  refine ⟨fun pg hpg => ⟨?_, ?_⟩, fun e he => ?_⟩
  · rw [hs, ← List.countP_eq_length_filter, List.countP_map]
    exact countP_key_eq_one _ hn pg hpg
  · intro e he hpath hnum
    rw [hs] at he
    rcases List.mem_map.1 he with ⟨r, hr, rfl⟩
    have hkey : Page.key r = Page.key pg := by
      simp only [Page.toEntry] at hpath hnum
      simp [Page.key, hpath, hnum]
    have hrp := List.inj_on_of_nodup_map hn hr hpg hkey
    rw [hrp]
    simp [Page.toEntry]
  · rw [hs] at he
    rcases List.mem_map.1 he with ⟨r, hr, rfl⟩
    rw [← List.countP_eq_length_filter]
    exact countP_key_eq_one _ hn r hr

/-- Witness for C2 on a store with one one-page document. -/
theorem page_index_bijection_witness :
    ((applyOps [Op.upsertDoc noUpsertFail "a.pdf" "h1" ["x"] 0]).fts.filter
        (fun e => e.path == (Page.mk "a.pdf" 1 "h1" "x" 0).path
          && e.pageNum == (Page.mk "a.pdf" 1 "h1" "x" 0).pageNum)).length = 1 :=
  ((page_index_bijection [Op.upsertDoc noUpsertFail "a.pdf" "h1" ["x"] 0]).1
    (Page.mk "a.pdf" 1 "h1" "x" 0) (by decide)).1

/-- C5: `RebuildFTS` is idempotent — a second rebuild with no intervening
content mutation is a no-op — each run leaves exactly one `pdfs_fts` row per
`pdfs` row, and on a synchronized store (every store the system reaches, by
C2) `Search` returns the same ordered result set before and after a rebuild. -/
theorem rebuildFTS_idempotent (st : DBState) (eng : FtsEngine) (q : String)
    (limit : Int) (hsync : Synced st) :
    (RebuildFTS false ((RebuildFTS false st).1)).1 = (RebuildFTS false st).1 ∧
    (RebuildFTS false st).1.fts = st.pdfs.map Page.toEntry ∧
    Search eng ((RebuildFTS false st).1) q limit = Search eng st q limit := by
  have hst : (RebuildFTS false st).1 = st := by
    cases st with
    | mk pdfs fts =>
      unfold Synced at hsync
      simp only at hsync
      simp [RebuildFTS, hsync]
  exact ⟨by rw [hst]; exact hst, by rw [hst]; exact hsync, by rw [hst]⟩

/-- Witness for C5 on a concrete synchronized store. -/
theorem rebuildFTS_idempotent_witness :
    (RebuildFTS false ((RebuildFTS false
        (applyOps [Op.upsertDoc noUpsertFail "a.pdf" "h1" ["x"] 0])).1)).1
      = (RebuildFTS false (applyOps [Op.upsertDoc noUpsertFail "a.pdf" "h1" ["x"] 0])).1 ∧
    (RebuildFTS false (applyOps [Op.upsertDoc noUpsertFail "a.pdf" "h1" ["x"] 0])).1.fts
      = (applyOps [Op.upsertDoc noUpsertFail "a.pdf" "h1" ["x"] 0]).pdfs.map Page.toEntry ∧
    Search engW (RebuildFTS false
        (applyOps [Op.upsertDoc noUpsertFail "a.pdf" "h1" ["x"] 0])).1 "x" 5
      = Search engW (applyOps [Op.upsertDoc noUpsertFail "a.pdf" "h1" ["x"] 0]) "x" 5 :=
  rebuildFTS_idempotent (applyOps [Op.upsertDoc noUpsertFail "a.pdf" "h1" ["x"] 0])
    engW "x" 5 (synced_applyOps [Op.upsertDoc noUpsertFail "a.pdf" "h1" ["x"] 0])

/-- C6: the `Search` contract.  For any well-formed query and any limit
`N ≥ 0`, a successful `Search` returns at most `N` rows, sorted by path then
page number, and every row comes from a matching index entry joined with its
page, with its snippet produced by
`snippet(pdfs_fts, 2, '[HL]', '[/HL]', '...', 25)`. -/
theorem search_contract (eng : FtsEngine) (st : DBState) (q : String) (N : Int)
    (hN : 0 ≤ N) (rows : List SearchRow) (hrows : Search eng st q N = .ok rows) :
    (rows.length : Int) ≤ N ∧
    rows.Pairwise
      (fun a b => a.path < b.path ∨ (a.path = b.path ∧ a.pageNum ≤ b.pageNum)) ∧
    (∀ r ∈ rows, ∃ e ∈ st.fts, ∃ pg ∈ st.pdfs,
      pg.path = e.path ∧ pg.pageNum = e.pageNum ∧ eng.matchesQ q e.content_idx = true ∧
      r = ⟨pg.path, pg.pageNum, eng.snippetOf "[HL]" "[/HL]" "..." 25 q e.content_idx,
           pg.lastScanned⟩) := by
  unfold Search at hrows
  cases hsyn : eng.syntaxOK q with
  | false => rw [hsyn] at hrows; simp at hrows
  | true =>
    rw [hsyn] at hrows
    simp only [Bool.not_true, Bool.false_eq_true, if_false, Except.ok.injEq] at hrows
    subst hrows
    refine ⟨?_, ?_, ?_⟩
    · unfold applyLimit
      rw [if_neg (by omega : ¬ N < 0)]
      have hlen := List.length_take_le N.toNat
        ((searchJoin eng st q).mergeSort rowLE)
      have hcast : (N.toNat : Int) = N := Int.toNat_of_nonneg hN
      omega
    · have htot : ∀ a b : SearchRow, (rowLE a b || rowLE b a) = true := fun a b =>
        (Bool.or_eq_true _ _).mpr (rowLE_total a b)
      have hsorted := List.sorted_mergeSort rowLE_trans htot (searchJoin eng st q)
      have hsub := applyLimit_sublist N ((searchJoin eng st q).mergeSort rowLE)
      refine (hsorted.sublist hsub).imp ?_
      intro a b hab
      simpa [rowLE, Bool.or_eq_true, Bool.and_eq_true, decide_eq_true_eq] using hab
    · intro r hr
      have hr1 : r ∈ (searchJoin eng st q).mergeSort rowLE :=
        (applyLimit_sublist N _).subset hr
      rw [List.mem_mergeSort] at hr1
      rcases List.mem_flatMap.1 hr1 with ⟨e, he, hre⟩
      rcases List.mem_filter.1 he with ⟨heF, hematch⟩
      rcases List.mem_map.1 hre with ⟨pg, hpgF, rfl⟩
      rcases List.mem_filter.1 hpgF with ⟨hpg, hkey⟩
      simp only [Bool.and_eq_true, beq_iff_eq] at hkey
      exact ⟨e, heF, pg, hpg, hkey.1, hkey.2, hematch, rfl⟩

/-- Witness for C6 at limit 0 on an empty store. -/
theorem search_contract_witness :
    ((([] : List SearchRow).length : Int) ≤ 0) ∧
    ([] : List SearchRow).Pairwise
      (fun a b => a.path < b.path ∨ (a.path = b.path ∧ a.pageNum ≤ b.pageNum)) ∧
    (∀ r ∈ ([] : List SearchRow), ∃ e ∈ emptyDB.fts, ∃ pg ∈ emptyDB.pdfs,
      pg.path = e.path ∧ pg.pageNum = e.pageNum ∧
      engW.matchesQ "x" e.content_idx = true ∧
      r = ⟨pg.path, pg.pageNum, engW.snippetOf "[HL]" "[/HL]" "..." 25 "x" e.content_idx,
           pg.lastScanned⟩) :=
  search_contract engW emptyDB "x" 0 (by omega) []
    (by simp [Search, engW, applyLimit])

/-- C7: the `LiveSearch` contract.  For every limit, the empty query returns
no rows and no error; a successful non-empty query returns the rank-ordered
join rows (rank sorted ascending, each row from a matching index entry with
the `'>>>'`/`'<<<'`/`' ... '`/15-token snippet), truncated to the limit. -/
theorem livesearch_contract (eng : FtsEngine) (st : DBState) (limit : Int) :
    (LiveSearch eng st "" limit = .ok []) ∧
    (∀ (q : String) (rows : List LiveRow), q ≠ "" →
      LiveSearch eng st q limit = .ok rows →
      ∃ ranked : List (Int × LiveRow),
        ranked.Pairwise (fun a b => a.1 ≤ b.1) ∧
        (∀ pr ∈ ranked, ∃ e ∈ st.fts, ∃ pg ∈ st.pdfs,
          pg.path = e.path ∧ pg.pageNum = e.pageNum ∧
          eng.matchesQ q e.content_idx = true ∧
          pr.1 = eng.rankOf q e.content_idx ∧
          pr.2 = ⟨pg.path, pg.pageNum,
            eng.snippetOf ">>>" "<<<" " ... " 15 q e.content_idx⟩) ∧
        rows = applyLimit limit (ranked.map Prod.snd)) := by
  constructor
  · simp [LiveSearch]
  · intro q rows hq hrows
    unfold LiveSearch at hrows
    rw [if_neg (by simpa using hq)] at hrows
    cases hsyn : eng.syntaxOK q with
    | false => rw [hsyn] at hrows; simp at hrows
    | true =>
      rw [hsyn] at hrows
      simp only [Bool.not_true, Bool.false_eq_true, if_false, Except.ok.injEq] at hrows
      refine ⟨(liveJoin eng st q).mergeSort rankLE, ?_, ?_, hrows.symm⟩
      · have htot : ∀ a b : Int × LiveRow, (rankLE a b || rankLE b a) = true := fun a b =>
          (Bool.or_eq_true _ _).mpr (rankLE_total a b)
        have hsorted := List.sorted_mergeSort rankLE_trans htot (liveJoin eng st q)
        refine hsorted.imp ?_
        intro a b hab
        simpa [rankLE, decide_eq_true_eq] using hab
      · intro pr hpr
        rw [List.mem_mergeSort] at hpr
        rcases List.mem_flatMap.1 hpr with ⟨e, he, hpe⟩
        rcases List.mem_filter.1 he with ⟨heF, hematch⟩
        rcases List.mem_map.1 hpe with ⟨pg, hpgF, rfl⟩
        rcases List.mem_filter.1 hpgF with ⟨hpg, hkey⟩
        simp only [Bool.and_eq_true, beq_iff_eq] at hkey
        exact ⟨e, heF, pg, hpg, hkey.1, hkey.2, hematch, rfl, rfl⟩

/-- Witness for C7: empty query on a concrete store, and a non-empty query
on the empty store. -/
theorem livesearch_contract_witness :
    (LiveSearch engW (applyOps [Op.upsertDoc noUpsertFail "a.pdf" "h1" ["x"] 0]) "" 5
      = .ok []) ∧
    (∃ ranked : List (Int × LiveRow),
      ranked.Pairwise (fun a b => a.1 ≤ b.1) ∧
      (∀ pr ∈ ranked, ∃ e ∈ emptyDB.fts, ∃ pg ∈ emptyDB.pdfs,
        pg.path = e.path ∧ pg.pageNum = e.pageNum ∧
        engW.matchesQ "x" e.content_idx = true ∧
        pr.1 = engW.rankOf "x" e.content_idx ∧
        pr.2 = ⟨pg.path, pg.pageNum,
          engW.snippetOf ">>>" "<<<" " ... " 15 "x" e.content_idx⟩) ∧
      ([] : List LiveRow) = applyLimit 5 (ranked.map Prod.snd)) :=
  ⟨(livesearch_contract engW
      (applyOps [Op.upsertDoc noUpsertFail "a.pdf" "h1" ["x"] 0]) 5).1,
   (livesearch_contract engW emptyDB 5).2 "x" [] (by decide)
     (by simp [LiveSearch, engW, liveJoin, emptyDB, applyLimit])⟩

/-- C8: per-document failure isolation.  The processing phase always
completes with a processed count equal to the number of files whose
extraction and store transaction both succeeded; failed documents leave the
store exactly as if they had not been in the batch; and a hash failure in
the checking phase skips only that file. -/
theorem per_document_failure_isolation (env : ProcEnv) (st : DBState)
    (files : List PDFFileInfo) :
    (processPDFs env st files).2 = files.countP (docOK env) ∧
    (processPDFs env st files).1 = (processPDFs env st (files.filter (docOK env))).1 ∧
    (∀ (senv : ScanEnv) (db : DBState) (forced : Bool) (p : String)
      (rest : List String), senv.hashFile p = none →
      checkHashes senv db (p :: rest) forced = checkHashes senv db rest forced) := by
  have h1 := processPDFs_foldl env files st 0
  have h2 := processPDFs_foldl env (files.filter (docOK env)) st 0
  refine ⟨?_, ?_, ?_⟩
  · unfold processPDFs
    rw [h1]
    simp
  · unfold processPDFs
    rw [h1, h2]
    simp only
    have hff : (files.filter (docOK env)).filter (docOK env)
        = files.filter (docOK env) := by
      rw [List.filter_filter]
      apply List.filter_congr
      intro a _
      exact Bool.and_self _
    rw [hff]
  · intro senv db forced p rest hnone
    simp [checkHashes, List.filterMap_cons, checkHashFile, hnone]

/-- Witness for C8: a hash failure on one file skips exactly that file. -/
theorem per_document_failure_isolation_witness :
    checkHashes envNoneW emptyDB ["a.pdf"] false = checkHashes envNoneW emptyDB [] false :=
  (per_document_failure_isolation procEnvW emptyDB []).2.2 envNoneW emptyDB false
    "a.pdf" [] rfl

end PdfFts
